import Mathlib

/-!
Verification development for the `longshot` orchestrator core.

The TypeScript sources are shallowly embedded: pure decision logic is
translated into executable Lean definitions (JavaScript strings become
`String`/`List Char`, JS numbers become `Nat`/`Int`/`Rat` as appropriate,
thrown exceptions become `Option`/`Except`, and mutation becomes explicit
state passing).  Each embedded definition names the source file and lines
it was transcribed from.  Theorems at the end check the specification
claims against these definitions.
-/

namespace Longshot

/-! ### JavaScript string helpers -/

/-- JavaScript `String.prototype.includes`: substring containment. -/
def jsIncludes (s sub : String) : Bool :=
  decide (sub.data <:+: s.data)

/-- Whitespace characters recognised by JS `trim` / `\s` (restricted to the
ASCII whitespace set, which covers every string the orchestrator handles). -/
def jsWsChar (c : Char) : Bool :=
  c == ' ' || c == '\t' || c == '\n' || c == '\r' || c == '\x0b' || c == '\x0c'

def trimChars (cs : List Char) : List Char :=
  ((cs.dropWhile jsWsChar).reverse.dropWhile jsWsChar).reverse

/-- JavaScript `String.prototype.trim`. -/
def jsTrim (s : String) : String :=
  ⟨trimChars s.data⟩

/-- JavaScript `String.prototype.slice(i, j)` for `0 ≤ i ≤ j`. -/
def jsSlice (cs : List Char) (i j : Nat) : List Char :=
  (cs.drop i).take (j - i)

/-- JavaScript `String.prototype.substring(i)` (to the end). -/
def jsSubstringFrom (cs : List Char) (i : Nat) : List Char :=
  cs.drop i

/-- JavaScript `indexOf` for a single character (`none` encodes `-1`). -/
def idxOfChar (cs : List Char) (c : Char) : Option Nat :=
  cs.findIdx? (· == c)

/-- JavaScript `lastIndexOf` for a single character (`none` encodes `-1`). -/
def lastIdxOfChar (cs : List Char) (c : Char) : Option Nat :=
  match cs.reverse.findIdx? (· == c) with
  | some i => some (cs.length - 1 - i)
  | none => none

/-! ### Core data model (packages/core: `Task`, `Handoff`) -/

structure Task where
  id : String
  description : String
  scope : List String
  acceptance : String
  branch : String
  status : String
  createdAt : Nat
  priority : Int
  deriving Repr, DecidableEq

structure HandoffMetrics where
  linesAdded : Nat
  linesRemoved : Nat
  filesCreated : Nat
  filesModified : Nat
  tokensUsed : Nat
  toolCallCount : Nat
  durationMs : Nat
  deriving Repr, DecidableEq

structure Handoff where
  taskId : String
  status : String
  summary : String
  diff : String
  filesChanged : List String
  concerns : List String
  suggestions : List String
  metrics : HandoffMetrics
  deriving Repr, DecidableEq

def zeroMetrics : HandoffMetrics :=
  ⟨0, 0, 0, 0, 0, 0, 0⟩

/-! ### Planner dispatch pipeline (orchestrator/src/planner.ts)

State relevant to task-identity bookkeeping: the `activeTasks` and
`dispatchedTaskIds` sets (modelled as lists with membership), plus two
logs recording observable effects: ids enqueued on the task queue and ids
handed to `dispatchSingleTask`. -/

structure DispatchState where
  activeTasks : List String
  dispatchedTaskIds : List String
  enqueuedIds : List String
  dispatchedLog : List String
  deriving Repr, DecidableEq

def DispatchState.init : DispatchState := ⟨[], [], [], []⟩

/-- One iteration of `Planner.dispatchTasks` (planner.ts:574-590): if the id is
already in `activeTasks` or `dispatchedTaskIds` the task is skipped entirely;
otherwise it is enqueued, the id is added to `dispatchedTaskIds` and
`activeTasks`, and `dispatchSingleTask` is invoked. -/
def dispatchTasksStep (s : DispatchState) (t : Task) : DispatchState :=
  if t.id ∈ s.activeTasks ∨ t.id ∈ s.dispatchedTaskIds then s
  else
    { s with
      enqueuedIds := s.enqueuedIds ++ [t.id]
      dispatchedTaskIds := s.dispatchedTaskIds ++ [t.id]
      activeTasks := s.activeTasks ++ [t.id]
      dispatchedLog := s.dispatchedLog ++ [t.id] }

/-- `Planner.dispatchTasks` (planner.ts:574-590). -/
def dispatchTasks (s : DispatchState) (ts : List Task) : DispatchState :=
  ts.foldl dispatchTasksStep s

/-- `Planner.injectTask` (planner.ts:726-740): same guard and effect as one
`dispatchTasks` iteration (the source duplicates the code). -/
def injectTask (s : DispatchState) (t : Task) : DispatchState :=
  if t.id ∈ s.activeTasks ∨ t.id ∈ s.dispatchedTaskIds then s
  else
    { s with
      enqueuedIds := s.enqueuedIds ++ [t.id]
      dispatchedTaskIds := s.dispatchedTaskIds ++ [t.id]
      activeTasks := s.activeTasks ++ [t.id]
      dispatchedLog := s.dispatchedLog ++ [t.id] }

/-- The operations of a run that touch this state: a `dispatchTasks` batch, an
`injectTask` call, and the `finally` block of `dispatchSingleTask`
(planner.ts:676-680), which removes the id from `activeTasks` only. -/
inductive PlannerOp where
  | dispatchBatch (ts : List Task)
  | inject (t : Task)
  | finishTask (id : String)
  deriving Repr

def plannerStep (s : DispatchState) : PlannerOp → DispatchState
  | .dispatchBatch ts => dispatchTasks s ts
  | .inject t => injectTask s t
  | .finishTask id => { s with activeTasks := s.activeTasks.erase id }

/-- A whole run: any interleaving of batches, injections and completions,
starting from the empty state of the `Planner` constructor. -/
def plannerRun (ops : List PlannerOp) : DispatchState :=
  ops.foldl plannerStep .init

/-- Invariant tying the dispatch log to the id set. -/
def dispatchInv (s : DispatchState) : Prop :=
  s.dispatchedLog.Nodup ∧ s.dispatchedLog ⊆ s.dispatchedTaskIds

theorem dispatchInv_one (s : DispatchState) (t : Task) (h : dispatchInv s) :
    dispatchInv (dispatchTasksStep s t) := by
  obtain ⟨hnd, hsub⟩ := h
  unfold dispatchTasksStep
  split
  · exact ⟨hnd, hsub⟩
  · rename_i hguard
    constructor
    · simp only [List.nodup_append, List.nodup_cons, List.nodup_nil, List.disjoint_singleton]
      refine ⟨hnd, ⟨by simp, by simp⟩, ?_⟩
      intro hmem
      exact hguard (Or.inr (hsub hmem))
    · intro a ha
      rcases List.mem_append.1 ha with h1 | h2
      · exact List.mem_append.2 (Or.inl (hsub h1))
      · exact List.mem_append.2 (Or.inr h2)

theorem dispatchInv_batch (ts : List Task) (s : DispatchState) (h : dispatchInv s) :
    dispatchInv (dispatchTasks s ts) := by
  induction ts generalizing s with
  | nil => exact h
  | cons t ts ih =>
    simp only [dispatchTasks, List.foldl_cons]
    exact ih _ (dispatchInv_one s t h)

theorem injectTask_eq_step (s : DispatchState) (t : Task) :
    injectTask s t = dispatchTasksStep s t := rfl

theorem dispatchInv_step (s : DispatchState) (op : PlannerOp) (h : dispatchInv s) :
    dispatchInv (plannerStep s op) := by
  cases op with
  | dispatchBatch ts => exact dispatchInv_batch ts s h
  | inject t => exact dispatchInv_one s t h
  | finishTask id => exact h

theorem dispatchInv_run (ops : List PlannerOp) : dispatchInv (plannerRun ops) := by
  have gen : ∀ s, dispatchInv s → dispatchInv (ops.foldl plannerStep s) := by
    induction ops with
    | nil => intro s h; exact h
    | cons op ops ih =>
      intro s h
      simp only [List.foldl_cons]
      exact ih _ (dispatchInv_step s op h)
  exact gen .init ⟨List.nodup_nil, List.nil_subset _⟩

theorem dispatchedTaskIds_mono_one (s : DispatchState) (t : Task) :
    s.dispatchedTaskIds ⊆ (dispatchTasksStep s t).dispatchedTaskIds := by
  unfold dispatchTasksStep
  split
  · exact fun a ha => ha
  · intro a ha
    exact List.mem_append.2 (Or.inl ha)

theorem dispatchedTaskIds_mono_step (s : DispatchState) (op : PlannerOp) :
    s.dispatchedTaskIds ⊆ (plannerStep s op).dispatchedTaskIds := by
  cases op with
  | dispatchBatch ts =>
    show s.dispatchedTaskIds ⊆ (dispatchTasks s ts).dispatchedTaskIds
    induction ts generalizing s with
    | nil => exact fun a ha => ha
    | cons t ts ih =>
      simp only [dispatchTasks, List.foldl_cons]
      exact fun a ha => ih (dispatchTasksStep s t) (dispatchedTaskIds_mono_one s t ha)
  | inject t => exact dispatchedTaskIds_mono_one s t
  | finishTask id => exact fun a ha => ha

theorem dispatchedTaskIds_mono_fold (extra : List PlannerOp) (s : DispatchState) :
    s.dispatchedTaskIds ⊆ (extra.foldl plannerStep s).dispatchedTaskIds := by
  induction extra generalizing s with
  | nil => exact fun a ha => ha
  | cons op ops ih =>
    exact fun a ha => ih (plannerStep s op) (dispatchedTaskIds_mono_step s op ha)

theorem dispatchedTaskIds_mono_run (ops extra : List PlannerOp) :
    (plannerRun ops).dispatchedTaskIds ⊆ (plannerRun (ops ++ extra)).dispatchedTaskIds := by
  unfold plannerRun
  rw [List.foldl_append]
  exact dispatchedTaskIds_mono_fold extra _

/-- C1: over any run, each task id is handed to `dispatchSingleTask` at most
once; `dispatchTasks` and `injectTask` skip (leave the whole state unchanged,
so nothing is enqueued or dispatched) any task whose id is already in
`activeTasks` or `dispatchedTaskIds`; otherwise the id is added to
`dispatchedTaskIds` (so the dispatch log always stays inside that set), and
`dispatchedTaskIds` only ever grows as the run is extended. -/
theorem taskId_dispatched_at_most_once (ops extra : List PlannerOp) (t : Task)
    (hdup : t.id ∈ (plannerRun ops).activeTasks ∨ t.id ∈ (plannerRun ops).dispatchedTaskIds) :
    (∀ id, (plannerRun ops).dispatchedLog.count id ≤ 1)
    ∧ (plannerRun ops).dispatchedLog ⊆ (plannerRun ops).dispatchedTaskIds
    ∧ (plannerRun ops).dispatchedTaskIds ⊆ (plannerRun (ops ++ extra)).dispatchedTaskIds
    ∧ injectTask (plannerRun ops) t = plannerRun ops
    ∧ dispatchTasksStep (plannerRun ops) t = plannerRun ops := by
  obtain ⟨hnd, hsub⟩ := dispatchInv_run ops
  refine ⟨fun id => List.nodup_iff_count_le_one.1 hnd id, hsub,
    dispatchedTaskIds_mono_run ops extra, ?_, ?_⟩
  · unfold injectTask
    simp only [if_pos hdup]
  · unfold dispatchTasksStep
    simp only [if_pos hdup]

/-- Concrete instance of `taskId_dispatched_at_most_once`: after dispatching a
task, injecting a task with the same id is a no-op. -/
theorem taskId_dispatched_at_most_once_witness :
    (("t1" ∈ (plannerRun [PlannerOp.inject ⟨"t1", "d", [], "a", "b", "pending", 0, 5⟩]).activeTasks
        ∨ "t1" ∈ (plannerRun [PlannerOp.inject ⟨"t1", "d", [], "a", "b", "pending", 0, 5⟩]).dispatchedTaskIds)
      ∧ injectTask (plannerRun [PlannerOp.inject ⟨"t1", "d", [], "a", "b", "pending", 0, 5⟩])
          ⟨"t1", "x", [], "y", "z", "pending", 3, 1⟩
        = plannerRun [PlannerOp.inject ⟨"t1", "d", [], "a", "b", "pending", 0, 5⟩]) := by
  have h := taskId_dispatched_at_most_once
    [PlannerOp.inject ⟨"t1", "d", [], "a", "b", "pending", 0, 5⟩] []
    ⟨"t1", "x", [], "y", "z", "pending", 3, 1⟩ (Or.inr (by decide))
  exact ⟨Or.inr (by decide), h.2.2.2.1⟩

/-! ### Merge-conflict handler (orchestrator factory, `createOrchestrator`)

Transcribed from the `mergeQueue.onConflict` callback installed by the
orchestrator factory: cascade guard, 10-task budget, and construction of the
conflict-fix task. -/

structure ConflictInfo where
  branch : String
  conflictingFiles : List String
  deriving Repr, DecidableEq

def MAX_CONFLICT_FIX_TASKS : Nat := 10

/-- JavaScript `String(n).padStart(3, "0")`. -/
def natPad3 (n : Nat) : String :=
  let s := toString n
  if s.length < 3 then String.mk (List.replicate (3 - s.length) '0') ++ s else s

/-- The conflict-fix `Task` literal built by the handler.  `slug` stands for
`slugifyForBranch` (defined in `shared.ts`, not under verification here) and
`now` for `Date.now()`. -/
def conflictFixTask (branchPfx : String) (slug : String → String) (now : Nat)
    (counter : Nat) (info : ConflictInfo) : Task :=
  let fixId := "conflict-fix-" ++ natPad3 counter
  { id := fixId
    description := "Resolve merge conflict from branch \"" ++ info.branch
      ++ "\". Conflicting files: " ++ String.intercalate ", " info.conflictingFiles
      ++ ". Open each file, find <<<<<<< / ======= / >>>>>>> blocks, resolve by keeping the correct version based on surrounding code context. Remove all conflict markers. Ensure the file compiles after resolution."
    scope := info.conflictingFiles.take 5
    acceptance := "No <<<<<<< markers remain in the affected files. tsc --noEmit returns 0 for these files."
    branch := branchPfx ++ fixId ++ "-" ++ slug ("resolve merge conflict " ++ info.branch)
    status := "pending"
    createdAt := now
    priority := 1 }

/-- The `onConflict` handler: skip branches whose name contains
`conflict-fix`; skip once the budget is exhausted; otherwise increment the
counter and inject a fix task. -/
def onConflictHandler (branchPfx : String) (slug : String → String) (now : Nat)
    (counter : Nat) (info : ConflictInfo) : Nat × Option Task :=
  if jsIncludes info.branch "conflict-fix" then (counter, none)
  else if MAX_CONFLICT_FIX_TASKS ≤ counter then (counter, none)
  else
    let c := counter + 1
    (c, some (conflictFixTask branchPfx slug now c info))

/-- A whole run of the handler over the stream of conflict events, pairing
each injected fix task with the event that caused it. -/
def runConflictEvents (branchPfx : String) (slug : String → String) (now : Nat)
    (events : List ConflictInfo) : Nat × List (ConflictInfo × Task) :=
  events.foldl
    (fun acc info =>
      match onConflictHandler branchPfx slug now acc.1 info with
      | (c, some t) => (c, acc.2 ++ [(info, t)])
      | (c, none) => (c, acc.2))
    (0, [])

theorem runConflictEvents_inv (branchPfx : String) (slug : String → String) (now : Nat)
    (events : List ConflictInfo) (c₀ : Nat) (acc₀ : List (ConflictInfo × Task))
    (hlen : acc₀.length + (MAX_CONFLICT_FIX_TASKS - c₀) ≤ MAX_CONFLICT_FIX_TASKS)
    (hprops : ∀ p ∈ acc₀, p.2.priority = 1 ∧ p.2.scope = p.1.conflictingFiles.take 5
      ∧ jsIncludes p.1.branch "conflict-fix" = false) :
    (events.foldl
      (fun acc info =>
        match onConflictHandler branchPfx slug now acc.1 info with
        | (c, some t) => (c, acc.2 ++ [(info, t)])
        | (c, none) => (c, acc.2))
      (c₀, acc₀)).2.length ≤ MAX_CONFLICT_FIX_TASKS
    ∧ ∀ p ∈ (events.foldl
      (fun acc info =>
        match onConflictHandler branchPfx slug now acc.1 info with
        | (c, some t) => (c, acc.2 ++ [(info, t)])
        | (c, none) => (c, acc.2))
      (c₀, acc₀)).2,
        p.2.priority = 1 ∧ p.2.scope = p.1.conflictingFiles.take 5
        ∧ jsIncludes p.1.branch "conflict-fix" = false := by
  induction events generalizing c₀ acc₀ with
  | nil =>
    simp only [List.foldl_nil]
    refine ⟨by omega, hprops⟩
  | cons info events ih =>
    simp only [List.foldl_cons]
    unfold onConflictHandler
    by_cases hcascade : jsIncludes info.branch "conflict-fix"
    · simp only [hcascade, if_true]
      exact ih c₀ acc₀ hlen hprops
    · simp only [hcascade, if_false]
      by_cases hbudget : MAX_CONFLICT_FIX_TASKS ≤ c₀
      · simp only [if_pos hbudget]
        exact ih c₀ acc₀ hlen hprops
      · simp only [if_neg hbudget]
        apply ih (c₀ + 1) (acc₀ ++ [(info, conflictFixTask branchPfx slug now (c₀ + 1) info)])
        · simp only [List.length_append, List.length_singleton]
          omega
        · intro p hp
          rcases List.mem_append.1 hp with h1 | h2
          · exact hprops p h1
          · simp only [List.mem_singleton] at h2
            subst h2
            refine ⟨rfl, rfl, ?_⟩
            simp only [Bool.not_eq_true] at hcascade
            exact hcascade

/-- C6: over a whole run, the merge-conflict handler injects at most 10
conflict-fix tasks; every injected task has priority 1 and scope equal to the
first five conflicting files; and no fix task is ever produced for a conflict
whose branch name contains `conflict-fix`. -/
theorem conflict_fix_budget (branchPfx : String) (slug : String → String) (now : Nat)
    (events : List ConflictInfo) :
    (runConflictEvents branchPfx slug now events).2.length ≤ 10
    ∧ ∀ p ∈ (runConflictEvents branchPfx slug now events).2,
        p.2.priority = 1 ∧ p.2.scope = p.1.conflictingFiles.take 5
        ∧ jsIncludes p.1.branch "conflict-fix" = false := by
  have h := runConflictEvents_inv branchPfx slug now events 0 []
    (by simp [MAX_CONFLICT_FIX_TASKS]) (by intro p hp; cases hp)
  exact h

/-- Concrete instance of `conflict_fix_budget` on a single conflict event. -/
theorem conflict_fix_budget_witness :
    (runConflictEvents "worker/" (fun _ => "s") 7 [⟨"worker/t1-x", ["a.ts", "b.ts"]⟩]).2.length ≤ 10
    ∧ ∀ p ∈ (runConflictEvents "worker/" (fun _ => "s") 7 [⟨"worker/t1-x", ["a.ts", "b.ts"]⟩]).2,
        p.2.priority = 1 ∧ p.2.scope = p.1.conflictingFiles.take 5
        ∧ jsIncludes p.1.branch "conflict-fix" = false :=
  conflict_fix_budget "worker/" (fun _ => "s") 7 [⟨"worker/t1-x", ["a.ts", "b.ts"]⟩]

/-! ### A model of `JSON.parse`

`JSON.parse` follows the JSON grammar (ECMA-404): a single value surrounded
by optional whitespace, with strict strings (no unescaped control
characters, only the standard escapes) and strict numbers (no leading `+`,
no leading zeros, no bare `.`).  Numbers are kept as their lexeme — none of
the verified code computes with numeric values beyond truthiness.  The one
deliberate deviation: a `\u` escape encoding a lone UTF-16 surrogate is
replaced by U+FFFD, since a Lean `Char` cannot hold a surrogate; no input
considered here contains `\u` escapes. -/

inductive JVal where
  | jnull
  | jbool (b : Bool)
  | jnum (lexeme : String)
  | jstr (s : String)
  | jarr (elems : List JVal)
  | jobj (fields : List (String × JVal))
  deriving Repr

/-- JSON whitespace (space, tab, line feed, carriage return). -/
def jsonWs (c : Char) : Bool :=
  c == ' ' || c == '\t' || c == '\n' || c == '\r'

def skipJsonWs (cs : List Char) : List Char :=
  cs.dropWhile jsonWs

def hexDigitVal (c : Char) : Option Nat :=
  if '0' ≤ c ∧ c ≤ '9' then some (c.toNat - '0'.toNat)
  else if 'a' ≤ c ∧ c ≤ 'f' then some (c.toNat - 'a'.toNat + 10)
  else if 'A' ≤ c ∧ c ≤ 'F' then some (c.toNat - 'A'.toNat + 10)
  else none

def charOfCodepoint (n : Nat) : Char :=
  if n.isValidChar then Char.ofNat n else '�'

/-- Parse the four hex digits of a `\u` escape. -/
def parseHex4 (cs : List Char) : Option (Nat × List Char) :=
  match cs with
  | a :: b :: c :: d :: rest =>
    match hexDigitVal a, hexDigitVal b, hexDigitVal c, hexDigitVal d with
    | some va, some vb, some vc, some vd =>
      some (va * 4096 + vb * 256 + vc * 16 + vd, rest)
    | _, _, _, _ => none
  | _ => none

/-- Parse the body of a JSON string after the opening quote; returns the
decoded characters and the remainder after the closing quote. -/
def parseJsonStringBody : Nat → List Char → Option (List Char × List Char)
  | 0, _ => none
  | _ + 1, [] => none
  | _ + 1, '"' :: rest => some ([], rest)
  | fuel + 1, '\\' :: e :: rest =>
    let simple : Char → Option Char := fun c =>
      match c with
      | '"' => some '"'
      | '\\' => some '\\'
      | '/' => some '/'
      | 'b' => some '\x08'
      | 'f' => some '\x0c'
      | 'n' => some '\n'
      | 'r' => some '\r'
      | 't' => some '\t'
      | _ => none
    match simple e with
    | some c =>
      match parseJsonStringBody fuel rest with
      | some (cs, rem) => some (c :: cs, rem)
      | none => none
    | none =>
      if e = 'u' then
        match parseHex4 rest with
        | some (hi, rest2) =>
          if 0xD800 ≤ hi ∧ hi ≤ 0xDBFF then
            match rest2 with
            | '\\' :: 'u' :: rest3 =>
              match parseHex4 rest3 with
              | some (lo, rest4) =>
                if 0xDC00 ≤ lo ∧ lo ≤ 0xDFFF then
                  match parseJsonStringBody fuel rest4 with
                  | some (cs, rem) =>
                    some (charOfCodepoint (0x10000 + (hi - 0xD800) * 0x400 + (lo - 0xDC00)) :: cs, rem)
                  | none => none
                else
                  match parseJsonStringBody fuel rest4 with
                  | some (cs, rem) => some ('�' :: charOfCodepoint lo :: cs, rem)
                  | none => none
              | none => none
            | _ =>
              match parseJsonStringBody fuel rest2 with
              | some (cs, rem) => some ('�' :: cs, rem)
              | none => none
          else
            match parseJsonStringBody fuel rest2 with
            | some (cs, rem) => some (charOfCodepoint hi :: cs, rem)
            | none => none
        | none => none
      else none
  | fuel + 1, c :: rest =>
    if c.toNat < 0x20 then none
    else
      match parseJsonStringBody fuel rest with
      | some (cs, rem) => some (c :: cs, rem)
      | none => none

/-- Parse a JSON number lexeme (`-? int frac? exp?`). -/
def parseJsonNumber (cs : List Char) : Option (List Char × List Char) :=
  let (neg, cs1) :=
    match cs with
    | '-' :: rest => (['-'], rest)
    | _ => (([] : List Char), cs)
  let intPart : Option (List Char × List Char) :=
    match cs1 with
    | '0' :: rest => some (['0'], rest)
    | c :: _ =>
      if '1' ≤ c ∧ c ≤ '9' then
        some (cs1.takeWhile Char.isDigit, cs1.dropWhile Char.isDigit)
      else none
    | [] => none
  match intPart with
  | none => none
  | some (ip, cs2) =>
    let (fp, cs3) :=
      match cs2 with
      | '.' :: rest =>
        if (rest.takeWhile Char.isDigit).isEmpty then (([] : List Char), cs2)
        else ('.' :: rest.takeWhile Char.isDigit, rest.dropWhile Char.isDigit)
      | _ => (([] : List Char), cs2)
    let fracOk : Bool :=
      match cs3 with
      | '.' :: _ => false
      | _ => true
    if fracOk then
      let (ep, cs4) :=
        match cs3 with
        | 'e' :: rest => expPart 'e' rest cs3
        | 'E' :: rest => expPart 'E' rest cs3
        | _ => (([] : List Char), cs3)
      some (neg ++ ip ++ fp ++ ep, cs4)
    else none
where
  expPart (e : Char) (rest : List Char) (orig : List Char) : List Char × List Char :=
    let (sign, rest2) :=
      match rest with
      | '+' :: r => (['+'], r)
      | '-' :: r => (['-'], r)
      | _ => (([] : List Char), rest)
    let ds := rest2.takeWhile Char.isDigit
    if ds.isEmpty then ([], orig)
    else (e :: sign ++ ds, rest2.dropWhile Char.isDigit)

mutual

/-- Parse one JSON value, consuming leading whitespace. -/
def parseJsonValue : Nat → List Char → Option (JVal × List Char)
  | 0, _ => none
  | fuel + 1, cs =>
    match skipJsonWs cs with
    | 't' :: 'r' :: 'u' :: 'e' :: rest => some (.jbool true, rest)
    | 'f' :: 'a' :: 'l' :: 's' :: 'e' :: rest => some (.jbool false, rest)
    | 'n' :: 'u' :: 'l' :: 'l' :: rest => some (.jnull, rest)
    | '"' :: rest =>
      match parseJsonStringBody (rest.length + 1) rest with
      | some (content, rem) => some (.jstr ⟨content⟩, rem)
      | none => none
    | '[' :: rest => parseJsonElems fuel rest
    | '{' :: rest => parseJsonMembers fuel rest
    | cs' =>
      match parseJsonNumber cs' with
      | some (lex, rest) => some (.jnum ⟨lex⟩, rest)
      | none => none

/-- Parse the inside of an array, after `[`. -/
def parseJsonElems : Nat → List Char → Option (JVal × List Char)
  | 0, _ => none
  | fuel + 1, cs =>
    match skipJsonWs cs with
    | ']' :: rest => some (.jarr [], rest)
    | cs' =>
      match parseJsonValue fuel cs' with
      | some (v, rest) =>
        match parseJsonElemsTail fuel rest with
        | some (vs, rem) => some (.jarr (v :: vs), rem)
        | none => none
      | none => none

/-- Parse `(, value)* ]` after an array element. -/
def parseJsonElemsTail : Nat → List Char → Option (List JVal × List Char)
  | 0, _ => none
  | fuel + 1, cs =>
    match skipJsonWs cs with
    | ']' :: rest => some ([], rest)
    | ',' :: rest =>
      match parseJsonValue fuel rest with
      | some (v, rest2) =>
        match parseJsonElemsTail fuel rest2 with
        | some (vs, rem) => some (v :: vs, rem)
        | none => none
      | none => none
    | _ => none

/-- Parse the inside of an object, after `{`. -/
def parseJsonMembers : Nat → List Char → Option (JVal × List Char)
  | 0, _ => none
  | fuel + 1, cs =>
    match skipJsonWs cs with
    | '}' :: rest => some (.jobj [], rest)
    | '"' :: rest =>
      match parseJsonMember fuel rest with
      | some (kv, rest2) =>
        match parseJsonMembersTail fuel rest2 with
        | some (kvs, rem) => some (.jobj (kv :: kvs), rem)
        | none => none
      | none => none
    | _ => none

/-- Parse one `key : value` member, after the key's opening quote. -/
def parseJsonMember : Nat → List Char → Option ((String × JVal) × List Char)
  | 0, _ => none
  | fuel + 1, cs =>
    match parseJsonStringBody (cs.length + 1) cs with
    | some (key, rest) =>
      match skipJsonWs rest with
      | ':' :: rest2 =>
        match parseJsonValue fuel rest2 with
        | some (v, rem) => some ((⟨key⟩, v), rem)
        | none => none
      | _ => none
    | none => none

/-- Parse `(, member)* }` after an object member. -/
def parseJsonMembersTail : Nat → List Char → Option (List (String × JVal) × List Char)
  | 0, _ => none
  | fuel + 1, cs =>
    match skipJsonWs cs with
    | '}' :: rest => some ([], rest)
    | ',' :: rest =>
      match skipJsonWs rest with
      | '"' :: rest2 =>
        match parseJsonMember fuel rest2 with
        | some (kv, rest3) =>
          match parseJsonMembersTail fuel rest3 with
          | some (kvs, rem) => some (kv :: kvs, rem)
          | none => none
        | none => none
      | _ => none
    | _ => none

end

/-- `JSON.parse`: a single value with optional surrounding whitespace;
anything else throws (encoded as `none`). -/
def jsonParse (s : String) : Option JVal :=
  match parseJsonValue (4 * s.data.length + 8) s.data with
  | some (v, rest) => if (skipJsonWs rest).isEmpty then some v else none
  | none => none

/-- JavaScript property access `obj.k` on a parsed JSON object: the last
occurrence of a duplicated key wins; access on non-objects or absent keys
yields `undefined` (`none`). -/
def jsGet (v : JVal) (k : String) : Option JVal :=
  match v with
  | .jobj fields =>
    match fields.reverse.find? (fun kv => kv.1 == k) with
    | some kv => some kv.2
    | none => none
  | _ => none

/-- JavaScript truthiness of a possibly-absent JSON value. -/
def jsTruthy (v : Option JVal) : Bool :=
  match v with
  | none => false
  | some .jnull => false
  | some (.jbool b) => b
  | some (.jnum lex) =>
    (lex.data.takeWhile (fun c => c != 'e' && c != 'E')).any fun c => c.isDigit && c != '0'
  | some (.jstr s) => !(s == "")
  | some (.jarr _) => true
  | some (.jobj _) => true

/-! ### Worker pool: sandbox close and timeout handling
(orchestrator/src/worker-pool.ts, `runSandboxStreaming`) -/

/-- The `close` handler (worker-pool.ts:475-514): reject if no stdout lines
were collected; otherwise `JSON.parse` the last line, resolving on success and
rejecting on a parse failure.  The exit code argument mirrors the ignored
`_code` parameter of the source. -/
def sandboxCloseResult (taskId : String) (stdoutLines : List String)
    (_code : Option Int) : Except String JVal :=
  match stdoutLines.getLast? with
  | none => .error ("Sandbox produced no output for task " ++ taskId)
  | some lastLine =>
    match jsonParse lastLine with
    | some v => .ok v
    | none =>
      .error ("Failed to parse sandbox output as Handoff JSON: " ++ (⟨jsSlice lastLine.data 0 200⟩ : String))

/-- C4: the close handler resolves with the parse of the last stdout line
exactly when some line exists and that line is valid JSON; it rejects when no
lines were produced or when the last line fails to parse; and the subprocess
exit code has no effect on the outcome. -/
theorem sandboxClose_lastLine_decides (taskId : String) (stdoutLines : List String)
    (code code' : Option Int) (v : JVal) (l : String) :
    (sandboxCloseResult taskId stdoutLines code = sandboxCloseResult taskId stdoutLines code')
    ∧ (stdoutLines = [] → ∃ m, sandboxCloseResult taskId stdoutLines code = .error m)
    ∧ (stdoutLines.getLast? = some l → jsonParse l = some v →
        sandboxCloseResult taskId stdoutLines code = .ok v)
    ∧ (stdoutLines.getLast? = some l → jsonParse l = none →
        ∃ m, sandboxCloseResult taskId stdoutLines code = .error m) := by
  refine ⟨rfl, ?_, ?_, ?_⟩
  · intro h
    subst h
    exact ⟨_, rfl⟩
  · intro hlast hparse
    unfold sandboxCloseResult
    rw [hlast]
    dsimp only
    rw [hparse]
  · intro hlast hparse
    unfold sandboxCloseResult
    rw [hlast]
    dsimp only
    rw [hparse]
    exact ⟨_, rfl⟩

/-- Concrete instance of `sandboxClose_lastLine_decides`: a log line followed
by a JSON object resolves to that object regardless of exit code. -/
theorem sandboxClose_lastLine_decides_witness :
    (["[spawn] cloning", "\x7b\"taskId\":\"t1\"\x7d"].getLast? = some "\x7b\"taskId\":\"t1\"\x7d")
    ∧ jsonParse "\x7b\"taskId\":\"t1\"\x7d" = some (.jobj [("taskId", .jstr "t1")])
    ∧ sandboxCloseResult "t1" ["[spawn] cloning", "\x7b\"taskId\":\"t1\"\x7d"] (some 1)
        = .ok (.jobj [("taskId", .jstr "t1")]) := by
  refine ⟨rfl, rfl, ?_⟩
  exact (sandboxClose_lastLine_decides "t1" ["[spawn] cloning", "\x7b\"taskId\":\"t1\"\x7d"]
    (some 1) (some 0) (.jobj [("taskId", .jstr "t1")]) "\x7b\"taskId\":\"t1\"\x7d").2.2.1 rfl rfl

/-- State of one `runSandboxStreaming` promise: the `settled` flag and the
pool's `timedOutBranches` list. -/
structure SandboxStreamState where
  settled : Bool
  timedOutBranches : List String
  deriving Repr, DecidableEq

/-- Observable effects of the timeout timer callback. -/
structure TimeoutEffect where
  killSignal : Option String
  rejectedWith : Option String
  deriving Repr, DecidableEq

/-- The timeout timer callback (worker-pool.ts:434-449): if already settled do
nothing; otherwise settle, `SIGKILL` the subprocess, record the branch in
`timedOutBranches`, and reject with the timeout error. -/
def onSandboxTimeout (workerTimeout : Nat) (taskId branchName : String)
    (st : SandboxStreamState) : SandboxStreamState × TimeoutEffect :=
  if st.settled then (st, ⟨none, none⟩)
  else
    ({ settled := true, timedOutBranches := st.timedOutBranches ++ [branchName] },
     ⟨some "SIGKILL",
      some ("Sandbox timed out after " ++ toString workerTimeout ++ "s for task " ++ taskId)⟩)

/-- The `catch` block of `Planner.dispatchSingleTask` (planner.ts:651-674):
the task is marked failed on the queue and a synthesized failed `Handoff` is
pushed.  The `Bool` records that `taskQueue.failTask` was invoked. -/
def dispatchSingleTaskCatch (taskId errMsg : String) : Bool × Handoff :=
  (true,
   { taskId := taskId
     status := "failed"
     summary := "Worker failed: " ++ errMsg
     diff := ""
     filesChanged := []
     concerns := [errMsg]
     suggestions := ["Retry the task"]
     metrics := zeroMetrics })

/-- C3: when the sandbox has not settled within `workerTimeout` seconds, the
timer kills it with `SIGKILL`, appends the task's branch to the timed-out
branches, and rejects with the timeout error; the planner's dispatch `catch`
then marks the task failed and synthesizes a failed handoff with empty
`filesChanged` and all-zero metrics. -/
theorem workerTimeout_kills_and_synthesizes_failed_handoff
    (workerTimeout : Nat) (taskId branchName : String) (st : SandboxStreamState)
    (hnot : st.settled = false) :
    (onSandboxTimeout workerTimeout taskId branchName st).2.killSignal = some "SIGKILL"
    ∧ (onSandboxTimeout workerTimeout taskId branchName st).1.timedOutBranches
        = st.timedOutBranches ++ [branchName]
    ∧ (onSandboxTimeout workerTimeout taskId branchName st).2.rejectedWith
        = some ("Sandbox timed out after " ++ toString workerTimeout ++ "s for task " ++ taskId)
    ∧ (dispatchSingleTaskCatch taskId
        ("Sandbox timed out after " ++ toString workerTimeout ++ "s for task " ++ taskId)).1 = true
    ∧ (dispatchSingleTaskCatch taskId
        ("Sandbox timed out after " ++ toString workerTimeout ++ "s for task " ++ taskId)).2.status = "failed"
    ∧ (dispatchSingleTaskCatch taskId
        ("Sandbox timed out after " ++ toString workerTimeout ++ "s for task " ++ taskId)).2.filesChanged = []
    ∧ (dispatchSingleTaskCatch taskId
        ("Sandbox timed out after " ++ toString workerTimeout ++ "s for task " ++ taskId)).2.metrics = zeroMetrics
    ∧ (dispatchSingleTaskCatch taskId
        ("Sandbox timed out after " ++ toString workerTimeout ++ "s for task " ++ taskId)).2.taskId = taskId := by
  unfold onSandboxTimeout
  rw [hnot]
  exact ⟨rfl, rfl, rfl, rfl, rfl, rfl, rfl, rfl⟩

/-- Concrete instance of `workerTimeout_kills_and_synthesizes_failed_handoff`
at `workerTimeout = 1800`. -/
theorem workerTimeout_kills_witness :
    ((⟨false, []⟩ : SandboxStreamState).settled = false)
    ∧ (onSandboxTimeout 1800 "t1" "worker/t1-x" ⟨false, []⟩).2.killSignal = some "SIGKILL"
    ∧ (onSandboxTimeout 1800 "t1" "worker/t1-x" ⟨false, []⟩).1.timedOutBranches = ["worker/t1-x"] := by
  have h := workerTimeout_kills_and_synthesizes_failed_handoff 1800 "t1" "worker/t1-x" ⟨false, []⟩ rfl
  exact ⟨rfl, h.1, h.2.1⟩

/-! ### Sandbox worker handoff construction (the worker runner, `runWorker`)

The subprocess/git results that feed the handoff — diff text, changed file
lists, numstat totals, staged-file list — enter as parameters; the embedded
definition is the decision logic of `runWorker` after the agent session ends
(empty-response detection, safety-net commit guard, and the handoff
literal). -/

/-- Result of a non-crashing `runWorker` run: the handoff written to
`result.json` and whether the safety-net `git commit` was executed. -/
def runWorkerHandoff (taskId : String) (tokensUsed toolCallCount : Nat)
    (lastAssistantMessage diff : String) (filesChanged : List String)
    (linesAdded linesRemoved filesCreatedCount : Nat) (stagedFiles : String)
    (durationMs : Nat) : Handoff × Bool :=
  let isEmptyResponse := tokensUsed == 0 && toolCallCount == 0
  let safetyNetCommit := !isEmptyResponse && !(stagedFiles == "")
  ({ taskId := taskId
     status := if isEmptyResponse then "failed" else "complete"
     summary :=
       if isEmptyResponse then
         "Task failed: LLM returned empty response (0 tokens, 0 tool calls). Possible API/endpoint failure."
       else if lastAssistantMessage == "" then "Task completed (no final message captured)."
       else lastAssistantMessage
     diff := diff
     filesChanged := filesChanged
     concerns :=
       if isEmptyResponse then
         ["Empty LLM response — possible API failure or model endpoint issue"]
       else []
     suggestions :=
       if isEmptyResponse then
         ["Check LLM endpoint connectivity", "Verify model is available in sandbox environment"]
       else []
     metrics :=
       { linesAdded := linesAdded
         linesRemoved := linesRemoved
         filesCreated := filesCreatedCount
         filesModified := filesChanged.length - filesCreatedCount
         tokensUsed := tokensUsed
         toolCallCount := toolCallCount
         durationMs := durationMs } },
   safetyNetCommit)

/-- C10: a non-crashing `runWorker` writes status `failed` exactly when the
session used 0 tokens and made 0 tool calls; in that case the safety-net
commit is skipped and the summary reports the empty LLM response; in every
other case the status is `complete` — the worker itself never writes
`partial` or `blocked`. -/
theorem runWorker_status_dichotomy (taskId : String) (tokensUsed toolCallCount : Nat)
    (lastAssistantMessage diff : String) (filesChanged : List String)
    (linesAdded linesRemoved filesCreatedCount : Nat) (stagedFiles : String)
    (durationMs : Nat) :
    ((runWorkerHandoff taskId tokensUsed toolCallCount lastAssistantMessage diff filesChanged
        linesAdded linesRemoved filesCreatedCount stagedFiles durationMs).1.status = "failed"
      ↔ tokensUsed = 0 ∧ toolCallCount = 0)
    ∧ ((runWorkerHandoff taskId tokensUsed toolCallCount lastAssistantMessage diff filesChanged
        linesAdded linesRemoved filesCreatedCount stagedFiles durationMs).1.status = "failed"
      ∨ (runWorkerHandoff taskId tokensUsed toolCallCount lastAssistantMessage diff filesChanged
        linesAdded linesRemoved filesCreatedCount stagedFiles durationMs).1.status = "complete")
    ∧ (tokensUsed = 0 ∧ toolCallCount = 0 →
        (runWorkerHandoff taskId tokensUsed toolCallCount lastAssistantMessage diff filesChanged
          linesAdded linesRemoved filesCreatedCount stagedFiles durationMs).2 = false
        ∧ (runWorkerHandoff taskId tokensUsed toolCallCount lastAssistantMessage diff filesChanged
          linesAdded linesRemoved filesCreatedCount stagedFiles durationMs).1.summary
          = "Task failed: LLM returned empty response (0 tokens, 0 tool calls). Possible API/endpoint failure.") := by
  by_cases hb : (tokensUsed == 0 && toolCallCount == 0) = true
  · have h0 : tokensUsed = 0 ∧ toolCallCount = 0 := by
      simpa [Bool.and_eq_true, beq_iff_eq] using hb
    refine ⟨⟨fun _ => h0, fun _ => ?_⟩, Or.inl ?_, fun _ => ⟨?_, ?_⟩⟩ <;>
      simp [runWorkerHandoff, hb]
  · have hb' : (tokensUsed == 0 && toolCallCount == 0) = false := by
      revert hb
      cases tokensUsed == 0 && toolCallCount == 0 <;> simp
    have h0 : ¬(tokensUsed = 0 ∧ toolCallCount = 0) := by
      rintro ⟨ha, hc⟩
      subst ha; subst hc
      exact hb rfl
    have hstat : (runWorkerHandoff taskId tokensUsed toolCallCount lastAssistantMessage diff
        filesChanged linesAdded linesRemoved filesCreatedCount stagedFiles durationMs).1.status
        = "complete" := by
      simp [runWorkerHandoff, hb']
    exact ⟨⟨fun hst => absurd (hstat.symm.trans hst) (by decide), fun hc => absurd hc h0⟩,
      Or.inr hstat, fun hc => absurd hc h0⟩

/-- Concrete instance of `runWorker_status_dichotomy` at a 0-token, 0-tool
session: every branch of the claim is visible. -/
theorem runWorker_status_dichotomy_witness :
    ((runWorkerHandoff "t1" 0 0 "" "" [] 0 0 0 "" 5).1.status = "failed"
      ↔ (0 : Nat) = 0 ∧ (0 : Nat) = 0)
    ∧ ((runWorkerHandoff "t1" 0 0 "" "" [] 0 0 0 "" 5).2 = false) := by
  have h := runWorker_status_dichotomy "t1" 0 0 "" "" [] 0 0 0 "" 5
  exact ⟨h.1, (h.2.2 ⟨rfl, rfl⟩).1⟩

/-! ### Merge conflict detection (packages/core/src/git.ts) -/

/-- The conflict test used inside `mergeBranch` (git.ts:113 and git.ts:190):
a plain substring check of the `git status --porcelain` output for `UU` or
`AA`. -/
def mergeStatusConflictCheck (statusStdout : String) : Bool :=
  jsIncludes statusStdout "UU" || jsIncludes statusStdout "AA"

/-- JavaScript `String.prototype.split("\n")` over characters. -/
def splitLinesAux : List Char → List Char → List (List Char)
  | [], acc => [acc.reverse]
  | '\n' :: rest, acc => acc.reverse :: splitLinesAux rest []
  | c :: rest, acc => splitLinesAux rest (c :: acc)

def splitLines (cs : List Char) : List (List Char) :=
  splitLinesAux cs []

/-- The porcelain status entries: trim, split on newlines, drop empties
(git.ts:257). -/
def porcelainEntries (statusStdout : String) : List String :=
  ((splitLines (trimChars statusStdout.data)).map fun cs => (⟨cs⟩ : String)).filter
    fun line => line.length > 0

def conflictCodes : List String := ["UU", "AA", "DD", "AU", "UA", "DU", "UD"]

/-- `getConflicts` (git.ts:253-283): keep the paths of entries whose
two-character code is one of the seven conflict codes. -/
def getConflicts (statusStdout : String) : List String :=
  (porcelainEntries statusStdout).filterMap fun line =>
    let status : String := ⟨jsSlice line.data 0 2⟩
    let filePath : String := jsTrim ⟨jsSubstringFrom line.data 3⟩
    if status ∈ conflictCodes then some filePath else none

/-- The claim's conflict predicate, written from the specification: some
porcelain entry has its two-character index/worktree code in the seven-code
set.  Kept for comparison against `mergeStatusConflictCheck`. -/
def specConflictDetected (statusStdout : String) : Bool :=
  (porcelainEntries statusStdout).any fun line =>
    decide ((⟨jsSlice line.data 0 2⟩ : String) ∈ conflictCodes)

/-- Outcome of one `mergeBranch` strategy arm. -/
structure MergeOutcome where
  success : Bool
  conflicted : Option Bool
  message : String
  ranMergeAbort : Bool
  deriving Repr, DecidableEq

/-- The `catch` arm of the `merge-commit` strategy (git.ts:184-202): run
`git status --porcelain`; on a `UU`/`AA` substring hit, `git merge --abort`
and report a conflict; otherwise report a plain failure. -/
def mergeCommitCatch (errMsg statusStdout : String) : MergeOutcome :=
  if mergeStatusConflictCheck statusStdout then
    ⟨false, some true, "Merge conflict occurred", true⟩
  else
    ⟨false, none, "Merge failed: " ++ errMsg, false⟩

/-- The `catch` arm of the `fast-forward` strategy (git.ts:99-122): a
non-fast-forwardable branch reports a non-conflict failure; a `UU`/`AA`
substring hit aborts the merge and reports a conflict; anything else
rethrows (`none`). -/
def fastForwardCatch (errMsg statusStdout : String) : Option MergeOutcome :=
  if jsIncludes errMsg "fatal: Not possible to fast-forward" then
    some ⟨false, some false, "Cannot fast-forward: " ++ errMsg, false⟩
  else if mergeStatusConflictCheck statusStdout then
    some ⟨false, some true, "Merge conflict occurred", true⟩
  else none

/-- C5 counterexample: the porcelain output `DU file.txt` has an entry whose
two-character code `DU` is in the seven-code conflict set — so the claim
requires the conflicted outcome — and `getConflicts` accordingly returns the
path; yet `mergeBranch`'s own check is only a `UU`/`AA` substring test, so
neither the merge-commit nor the fast-forward strategy reports a conflict
(and no `git merge --abort` runs). -/
theorem mergeConflict_codes_counterexample :
    specConflictDetected "DU file.txt" = true
    ∧ getConflicts "DU file.txt" = ["file.txt"]
    ∧ mergeStatusConflictCheck "DU file.txt" = false
    ∧ (mergeCommitCatch "merge exited 1" "DU file.txt").conflicted = none
    ∧ (mergeCommitCatch "merge exited 1" "DU file.txt").ranMergeAbort = false
    ∧ fastForwardCatch "merge exited 1" "DU file.txt" = none := by
  decide

/-- C5 (amended): a failing merge under the fast-forward or merge-commit
strategy produces `conflicted = true` — with `git merge --abort` run before
returning — exactly when the porcelain output contains `UU` or `AA` as a
substring (anywhere, not per-entry); `getConflicts` returns exactly the paths
of the entries whose two-character code is in
\x7bUU, AA, DD, AU, UA, DU, UD\x7d. -/
theorem mergeConflict_detection_amended (errMsg statusStdout p : String) :
    (mergeStatusConflictCheck statusStdout = true ↔
        "UU".data <:+: statusStdout.data ∨ "AA".data <:+: statusStdout.data)
    ∧ ((mergeCommitCatch errMsg statusStdout).conflicted = some true ↔
        mergeStatusConflictCheck statusStdout = true)
    ∧ ((mergeCommitCatch errMsg statusStdout).conflicted = some true →
        (mergeCommitCatch errMsg statusStdout).ranMergeAbort = true)
    ∧ (jsIncludes errMsg "fatal: Not possible to fast-forward" = false →
        (fastForwardCatch errMsg statusStdout
            = some ⟨false, some true, "Merge conflict occurred", true⟩ ↔
          mergeStatusConflictCheck statusStdout = true))
    ∧ (p ∈ getConflicts statusStdout ↔
        ∃ line ∈ porcelainEntries statusStdout,
          (⟨jsSlice line.data 0 2⟩ : String) ∈ conflictCodes
          ∧ jsTrim ⟨jsSubstringFrom line.data 3⟩ = p) := by
  refine ⟨?_, ?_, ?_, ?_, ?_⟩
  · simp only [mergeStatusConflictCheck, jsIncludes, Bool.or_eq_true, decide_eq_true_eq]
  · unfold mergeCommitCatch
    by_cases h : mergeStatusConflictCheck statusStdout
    · simp [h]
    · simp [h]
  · unfold mergeCommitCatch
    by_cases h : mergeStatusConflictCheck statusStdout
    · simp [h]
    · simp [h]
  · intro hff
    unfold fastForwardCatch
    rw [hff]
    by_cases h : mergeStatusConflictCheck statusStdout
    · simp [h]
    · simp [h]
  · unfold getConflicts
    rw [List.mem_filterMap]
    constructor
    · rintro ⟨line, hline, hsome⟩
      by_cases hc : (⟨jsSlice line.data 0 2⟩ : String) ∈ conflictCodes
      · rw [if_pos hc] at hsome
        exact ⟨line, hline, hc, Option.some_injective _ hsome⟩
      · rw [if_neg hc] at hsome
        cases hsome
    · rintro ⟨line, hline, hc, hp⟩
      exact ⟨line, hline, by rw [if_pos hc, hp]⟩

/-- Concrete instance of `mergeConflict_detection_amended`: a `UU` entry is
reported as a conflict with the abort run, and its path is returned. -/
theorem mergeConflict_detection_amended_witness :
    (jsIncludes "merge exited 1" "fatal: Not possible to fast-forward" = false)
    ∧ ((mergeCommitCatch "merge exited 1" "UU src/a.ts").conflicted = some true)
    ∧ ((mergeCommitCatch "merge exited 1" "UU src/a.ts").ranMergeAbort = true)
    ∧ ("src/a.ts" ∈ getConflicts "UU src/a.ts") := by
  have h := mergeConflict_detection_amended "merge exited 1" "UU src/a.ts" "src/a.ts"
  refine ⟨by decide, ?_, ?_, ?_⟩
  · exact h.2.1.mpr (by decide)
  · exact h.2.2.1 (h.2.1.mpr (by decide))
  · exact h.2.2.2.2.mpr ⟨"UU src/a.ts", by decide, by decide, by decide⟩

/-! ### Planner loop replanning (orchestrator/src/planner.ts, `runLoop`)

The loop body is modelled as a step function over the loop-local state
(`iteration`, `planningDone`, `consecutiveErrors`, plus an `exited` flag for
`break`/loop-condition exits).  Everything the tick reads from the
concurrently-mutated planner object is an adversarial per-tick environment:
the limiter occupancy, the handoff backlog, and the `activeTasks`/queue
sizes.  `activeTasksAtCheck`/`queuePendingAtCheck` stand for the reads at
planner.ts:180 and planner.ts:193 — between those two lines the loop never
suspends, so a single snapshot is faithful whenever the value matters (when
the tick dispatched no new tasks). -/

def LOOP_MIN_HANDOFFS_FOR_REPLAN : Nat := 3

def LOOP_MAX_CONSECUTIVE_ERRORS : Nat := 10

structure LoopEnv where
  dispatchActive : Nat
  handoffsSinceLastPlan : Nat
  activeTasksAtGuard : Nat
  planThrows : Bool
  planTaskCount : Nat
  activeTasksAtCheck : Nat
  queuePendingAtCheck : Nat
  deriving Repr, DecidableEq

structure LoopState where
  iteration : Nat
  planningDone : Bool
  consecutiveErrors : Nat
  exited : Bool
  deriving Repr, DecidableEq

def LoopState.init : LoopState := ⟨0, false, 0, false⟩

/-- One tick of `runLoop` (planner.ts:154-226).  Returns the next state and
whether a re-plan (the LLM planning call) was triggered this tick. -/
def loopTick (maxWorkers maxIterations : Nat) (st : LoopState) (env : LoopEnv) :
    LoopState × Bool :=
  if st.exited then (st, false)
  else if maxIterations ≤ st.iteration then ({ st with exited := true }, false)
  else
    let needsPlan : Prop :=
      env.dispatchActive < maxWorkers
      ∧ (st.iteration = 0 ∨ LOOP_MIN_HANDOFFS_FOR_REPLAN ≤ env.handoffsSinceLastPlan
          ∨ (env.activeTasksAtGuard = 0 ∧ 0 < st.iteration))
    if needsPlan ∧ st.planningDone = false then
      if env.planThrows then
        let ce := st.consecutiveErrors + 1
        if LOOP_MAX_CONSECUTIVE_ERRORS ≤ ce then
          ({ st with consecutiveErrors := ce, exited := true }, true)
        else ({ st with consecutiveErrors := ce }, true)
      else
        let pd : Bool := env.planTaskCount == 0 && env.activeTasksAtCheck == 0
          && env.queuePendingAtCheck == 0
        let st' : LoopState :=
          { st with iteration := st.iteration + 1, consecutiveErrors := 0, planningDone := pd }
        if pd && env.activeTasksAtCheck == 0 && env.queuePendingAtCheck == 0 then
          ({ st' with exited := true }, true)
        else (st', true)
    else
      if st.planningDone && env.activeTasksAtCheck == 0 && env.queuePendingAtCheck == 0 then
        ({ st with exited := true }, false)
      else (st, false)

/-- A loop run over a finite tick trace (a prematurely-ended trace models
`stop()` flipping `running`). -/
def loopRun (maxWorkers maxIterations : Nat) (envs : List LoopEnv) : LoopState :=
  envs.foldl (fun st env => (loopTick maxWorkers maxIterations st env).1) .init

/-- Key invariant: whenever the loop is still running, `planningDone` is
false — the tick that sets it also breaks out of the loop, because the break
check at planner.ts:193 re-reads the same sizes with no suspension point in
between. -/
def loopInv (st : LoopState) : Prop :=
  st.exited = true ∨ st.planningDone = false

theorem loopInv_tick (maxWorkers maxIterations : Nat) (st : LoopState) (env : LoopEnv)
    (h : loopInv st) : loopInv (loopTick maxWorkers maxIterations st env).1 := by
  unfold loopTick
  by_cases hex : st.exited
  · rw [if_pos hex]
    exact h
  · rw [if_neg hex]
    by_cases hit : maxIterations ≤ st.iteration
    · rw [if_pos hit]
      exact Or.inl rfl
    · rw [if_neg hit]
      have hpd : st.planningDone = false := by
        rcases h with h | h
        · exact absurd h hex
        · exact h
      dsimp only
      split
      · by_cases hthrow : env.planThrows = true
        · rw [if_pos hthrow]
          split
          · exact Or.inl rfl
          · exact Or.inr hpd
        · rw [if_neg hthrow]
          split
          · exact Or.inl rfl
          · rename_i hnot
            right
            show (env.planTaskCount == 0 && env.activeTasksAtCheck == 0
              && env.queuePendingAtCheck == 0) = false
            by_cases h0 : (env.planTaskCount == 0 && env.activeTasksAtCheck == 0
              && env.queuePendingAtCheck == 0) = true
            · exfalso
              apply hnot
              rw [h0]
              have h1 : (env.activeTasksAtCheck == 0) = true := by
                have := h0
                simp only [Bool.and_eq_true] at this
                exact this.1.2
              have h2 : (env.queuePendingAtCheck == 0) = true := by
                have := h0
                simp only [Bool.and_eq_true] at this
                exact this.2
              rw [h1, h2]
              rfl
            · exact Bool.not_eq_true _ ▸ (Bool.eq_false_iff.mpr h0)
      · split
        · exact Or.inl rfl
        · exact h

theorem loopInv_run (maxWorkers maxIterations : Nat) (envs : List LoopEnv) :
    loopInv (loopRun maxWorkers maxIterations envs) := by
  have gen : ∀ st, loopInv st →
      loopInv (envs.foldl (fun st env => (loopTick maxWorkers maxIterations st env).1) st) := by
    induction envs with
    | nil => intro st h; exact h
    | cons env envs ih =>
      intro st h
      exact ih _ (loopInv_tick maxWorkers maxIterations st env h)
  exact gen .init (Or.inr rfl)

/-- C8: on every tick the loop actually executes (not exited, iteration limit
not reached), a re-plan is triggered exactly when the dispatch limiter has
spare capacity and (it is the first iteration, or at least 3 handoffs arrived
since the last plan, or there is no active work and at least one iteration
has completed). -/
theorem replan_trigger_condition (maxWorkers maxIterations : Nat) (envs : List LoopEnv)
    (env : LoopEnv)
    (hrun : (loopRun maxWorkers maxIterations envs).exited = false)
    (hiter : (loopRun maxWorkers maxIterations envs).iteration < maxIterations) :
    (loopTick maxWorkers maxIterations (loopRun maxWorkers maxIterations envs) env).2 = true
    ↔ (env.dispatchActive < maxWorkers
        ∧ ((loopRun maxWorkers maxIterations envs).iteration = 0
            ∨ LOOP_MIN_HANDOFFS_FOR_REPLAN ≤ env.handoffsSinceLastPlan
            ∨ (env.activeTasksAtGuard = 0
                ∧ 0 < (loopRun maxWorkers maxIterations envs).iteration))) := by
  have hpd : (loopRun maxWorkers maxIterations envs).planningDone = false := by
    rcases loopInv_run maxWorkers maxIterations envs with h | h
    · rw [h] at hrun
      cases hrun
    · exact h
  generalize hst : loopRun maxWorkers maxIterations envs = st at *
  unfold loopTick
  rw [if_neg (by rw [hrun]; exact Bool.false_ne_true), if_neg (Nat.not_le.mpr hiter)]
  dsimp only
  by_cases hneed : env.dispatchActive < maxWorkers
      ∧ (st.iteration = 0 ∨ LOOP_MIN_HANDOFFS_FOR_REPLAN ≤ env.handoffsSinceLastPlan
          ∨ (env.activeTasksAtGuard = 0 ∧ 0 < st.iteration))
  · rw [if_pos ⟨hneed, hpd⟩]
    constructor
    · intro _
      exact hneed
    · intro _
      by_cases hthrow : env.planThrows = true
      · rw [if_pos hthrow]
        split <;> rfl
      · rw [if_neg hthrow]
        split <;> rfl
  · rw [if_neg (fun hc => hneed hc.1)]
    constructor
    · intro hplanned
      exfalso
      revert hplanned
      split
      · simp
      · simp
    · intro hc
      exact absurd hc hneed

/-- Concrete instance of `replan_trigger_condition`: the very first tick of a
run with spare capacity triggers a plan. -/
theorem replan_trigger_condition_witness :
    ((loopRun 100 100 []).exited = false)
    ∧ ((loopRun 100 100 []).iteration < 100)
    ∧ ((loopTick 100 100 (loopRun 100 100 []) ⟨0, 0, 0, false, 2, 1, 0⟩).2 = true) := by
  have h := replan_trigger_condition 100 100 [] ⟨0, 0, 0, false, 2, 1, 0⟩ rfl (by decide)
  exact ⟨rfl, by decide, h.mpr ⟨by decide, Or.inl rfl⟩⟩

/-! ### LLM client (orchestrator/src/llm-client.ts)

Endpoint weights, latencies and `Math.random` draws are rationals; the
random stream enters as a function from draw index to a rational in
`[0, 1)`.  Network requests enter as an oracle from endpoint state to
either a response or an error message. -/

structure LLMEndpoint where
  name : String
  endpoint : String
  apiKey : Option String
  weight : Rat
  deriving Repr, DecidableEq

structure EndpointState where
  cfg : LLMEndpoint
  effectiveWeight : Rat
  avgLatencyMs : Rat
  totalRequests : Nat
  totalFailures : Nat
  consecutiveFailures : Nat
  lastFailureAt : Nat
  healthy : Bool
  deriving Repr, DecidableEq

/-- Initial endpoint state (llm-client.ts:101-110). -/
def initEndpointState (ep : LLMEndpoint) : EndpointState :=
  { cfg := ep
    effectiveWeight := ep.weight
    avgLatencyMs := 0
    totalRequests := 0
    totalFailures := 0
    consecutiveFailures := 0
    lastFailureAt := 0
    healthy := true }

def UNHEALTHY_THRESHOLD : Nat := 3

def RECOVERY_PROBE_MS : Nat := 30000

def LATENCY_ALPHA : Rat := 3 / 10

/-- `recordFailure` (llm-client.ts:251-262). -/
def recordFailure (now : Nat) (s : EndpointState) : EndpointState :=
  let s' := { s with
    totalFailures := s.totalFailures + 1
    consecutiveFailures := s.consecutiveFailures + 1
    lastFailureAt := now }
  if UNHEALTHY_THRESHOLD ≤ s'.consecutiveFailures then { s' with healthy := false } else s'

/-- The per-endpoint part of `recordSuccess` (llm-client.ts:238-248). -/
def recordSuccessState (latencyMs : Rat) (s : EndpointState) : EndpointState :=
  { s with
    consecutiveFailures := 0
    healthy := true
    avgLatencyMs :=
      if s.avgLatencyMs = 0 then latencyMs
      else LATENCY_ALPHA * latencyMs + (1 - LATENCY_ALPHA) * s.avgLatencyMs }

def listMinRat : List Rat → Rat
  | [] => 0
  | x :: xs => xs.foldl min x

/-- `rebalanceWeights` (llm-client.ts:268-279). -/
def rebalanceWeights (states : List EndpointState) : List EndpointState :=
  let healthyWithLatency := states.filter fun s => s.healthy && decide (0 < s.avgLatencyMs)
  if healthyWithLatency.length < 2 then states
  else
    let minLatency := listMinRat (healthyWithLatency.map (·.avgLatencyMs))
    states.map fun s =>
      if s.healthy && decide (0 < s.avgLatencyMs) then
        { s with effectiveWeight := s.cfg.weight * max (1 / 2) (minLatency / s.avgLatencyMs) }
      else s

/-- The recovery-probe pass at the top of `selectEndpoints`
(llm-client.ts:147-153). -/
def probeRecover (now : Nat) (s : EndpointState) : EndpointState :=
  if s.healthy = false ∧ RECOVERY_PROBE_MS < now - s.lastFailureAt then
    { s with healthy := true, consecutiveFailures := 0 }
  else s

/-- The index scan of `weightedSort` (llm-client.ts:173-180): subtract weights
from the pick until it drops to `≤ 0`; `selectedIdx` stays `0` if the loop
never breaks. -/
def selectIdxGo (pick : Rat) : List Rat → Nat → Nat
  | [], _ => 0
  | w :: ws, i => if pick - w ≤ 0 then i else selectIdxGo (pick - w) ws (i + 1)

def selectIdx (pick : Rat) (ws : List Rat) : Nat :=
  selectIdxGo pick ws 0

/-- The selection loop of `weightedSort` (llm-client.ts:166-186), consuming
one `Math.random` draw per selection. -/
def weightedSortGo (rand : Nat → Rat) : Nat → Nat → List EndpointState → List EndpointState
  | 0, _, _ => []
  | _ + 1, _, [] => []
  | fuel + 1, k, e :: rest =>
    let remaining := e :: rest
    let ws := remaining.map (·.effectiveWeight)
    let total := ws.foldl (· + ·) 0
    let idx := selectIdx (rand k * total) ws
    if h : idx < remaining.length then
      remaining[idx] :: weightedSortGo rand fuel (k + 1) (remaining.eraseIdx idx)
    else []

/-- `weightedSort` (llm-client.ts:161-187). -/
def weightedSort (rand : Nat → Rat) (states : List EndpointState) : List EndpointState :=
  if states.length ≤ 1 then states
  else if states.all (fun s => s.effectiveWeight == 0) then states
  else weightedSortGo rand states.length 0 states

/-- `selectEndpoints` (llm-client.ts:144-159): probe-recover stale unhealthy
endpoints, then weighted-sort the healthy ones and append the unhealthy. -/
def selectEndpoints (now : Nat) (rand : Nat → Rat) (states : List EndpointState) :
    List EndpointState :=
  let states' := states.map (probeRecover now)
  let healthy := states'.filter (·.healthy)
  let unhealthy := states'.filter fun s => !s.healthy
  weightedSort rand healthy ++ unhealthy

structure LLMResponse where
  content : String
  promptTokens : Nat
  completionTokens : Nat
  totalTokens : Nat
  finishReason : String
  endpoint : String
  latencyMs : Nat
  deriving Repr, DecidableEq

/-- The failover loop of `complete` (llm-client.ts:120-137): first success
wins; failures record the last error.  Returns (result, attempts, last
error). -/
def completeGo (oracle : EndpointState → Except String LLMResponse) :
    List EndpointState → Nat → Option String → Option LLMResponse × Nat × Option String
  | [], n, lastError => (none, n, lastError)
  | e :: rest, n, lastError =>
    match oracle e with
    | .ok r => (some r, n + 1, lastError)
    | .error m =>
      let _ := lastError
      completeGo oracle rest (n + 1) (some m)

/-- JS template interpolation of a possibly-null error's `.message`. -/
def optErrMsg : Option String → String
  | some m => m
  | none => "undefined"

/-- `complete` (llm-client.ts:116-142): try each selected endpoint in order,
return the first success, and when the loop falls through throw the
aggregated error naming the configured endpoint count and the last error.
Also returns the number of request attempts made. -/
def complete (totalEndpoints : Nat) (now : Nat) (rand : Nat → Rat)
    (states : List EndpointState) (oracle : EndpointState → Except String LLMResponse) :
    Except String LLMResponse × Nat :=
  let ordered := selectEndpoints now rand states
  match completeGo oracle ordered 0 none with
  | (some r, n, _) => (.ok r, n)
  | (none, n, lastError) =>
    (.error ("All " ++ toString totalEndpoints
      ++ " LLM endpoints failed. Last error: " ++ optErrMsg lastError), n)

theorem selectIdxGo_lt (ws : List Rat) (pick : Rat) (i : Nat) (hne : ws ≠ []) :
    selectIdxGo pick ws i < i + ws.length := by
  induction ws generalizing pick i with
  | nil => exact absurd rfl hne
  | cons w ws ih =>
    unfold selectIdxGo
    split
    · simp
    · cases ws with
      | nil =>
        unfold selectIdxGo
        simp
      | cons w' ws' =>
        have := ih (pick - w) (i + 1) (by simp)
        simp only [List.length_cons] at this ⊢
        omega

theorem selectIdx_lt (ws : List Rat) (pick : Rat) (hne : ws ≠ []) :
    selectIdx pick ws < ws.length := by
  have := selectIdxGo_lt ws pick 0 hne
  simpa [selectIdx] using this


theorem completeGo_cons (oracle : EndpointState → Except String LLMResponse)
    (e : EndpointState) (rest : List EndpointState) (n : Nat) (le : Option String) :
    completeGo oracle (e :: rest) n le
      = match oracle e with
        | .ok r => (some r, n + 1, le)
        | .error m => completeGo oracle rest (n + 1) (some m) := rfl

theorem perm_getElem_cons_eraseIdx (l : List EndpointState) (i : Nat) (h : i < l.length) :
    (l[i] :: l.eraseIdx i).Perm l := by
  rw [List.eraseIdx_eq_take_drop_succ]
  refine List.perm_middle.symm.trans ?_
  rw [List.getElem_cons_drop, List.take_append_drop]

theorem weightedSortGo_perm (rand : Nat → Rat) (fuel : Nat) :
    ∀ (k : Nat) (remaining : List EndpointState), remaining.length ≤ fuel →
    (weightedSortGo rand fuel k remaining).Perm remaining := by
  induction fuel with
  | zero =>
    intro k remaining hlen
    rw [List.length_eq_zero.1 (Nat.le_zero.1 hlen)]
    exact List.Perm.refl _
  | succ fuel ih =>
    intro k remaining hlen
    match remaining with
    | [] => exact List.Perm.refl _
    | e :: rest =>
      simp only [weightedSortGo]
      split
      · rename_i hidx
        refine ((ih (k + 1) _ ?_).cons _).trans (perm_getElem_cons_eraseIdx _ _ hidx)
        have h1 := List.length_eraseIdx_add_one hidx
        simp only [List.length_cons] at hlen h1 ⊢
        omega
      · rename_i hidx
        exact absurd (by simpa using selectIdx_lt ((e :: rest).map (·.effectiveWeight)) _ (by simp))
          hidx

theorem weightedSort_perm (rand : Nat → Rat) (states : List EndpointState) :
    (weightedSort rand states).Perm states := by
  unfold weightedSort
  split
  · exact List.Perm.refl _
  · split
    · exact List.Perm.refl _
    · exact weightedSortGo_perm rand states.length 0 states (Nat.le_refl _)

theorem selectEndpoints_perm (now : Nat) (rand : Nat → Rat) (states : List EndpointState) :
    (selectEndpoints now rand states).Perm (states.map (probeRecover now)) := by
  unfold selectEndpoints
  refine ((weightedSort_perm rand _).append_right _).trans ?_
  exact List.filter_append_perm _ _

theorem completeGo_fail_shift (oracle : EndpointState → Except String LLMResponse)
    (pre : List EndpointState) :
    (∀ x ∈ pre, ∃ m, oracle x = .error m) →
    ∀ (rest : List EndpointState) (n : Nat) (le : Option String),
    ∃ le', completeGo oracle (pre ++ rest) n le = completeGo oracle rest (n + pre.length) le' := by
  induction pre with
  | nil =>
    intro _ rest n le
    exact ⟨le, by simp⟩
  | cons x pre ih =>
    intro hfail rest n le
    obtain ⟨m, hm⟩ := hfail x (List.mem_cons_self x pre)
    obtain ⟨le', hle'⟩ := ih (fun y hy => hfail y (List.mem_cons_of_mem x hy)) rest (n + 1) (some m)
    refine ⟨le', ?_⟩
    show completeGo oracle (x :: (pre ++ rest)) n le
      = completeGo oracle rest (n + (x :: pre).length) le'
    rw [completeGo_cons, hm]
    have harg : n + (x :: pre).length = n + 1 + pre.length := by
      simp only [List.length_cons]
      omega
    rw [harg]
    exact hle'

/-- C2: `complete` attempts the endpoints in the selected order.  If some
endpoint in that order succeeds after the ones before it failed, its response
is returned after exactly one attempt per endpoint tried so far; if every
endpoint fails, `complete` throws the aggregated error naming the configured
endpoint count and the last failure's message, after exactly one attempt per
configured endpoint (the selected order being a permutation of the endpoint
states). -/
theorem complete_first_success_or_aggregate (eps : List LLMEndpoint) (now : Nat)
    (rand : Nat → Rat) (oracle : EndpointState → Except String LLMResponse)
    (pre post : List EndpointState) (e : EndpointState) (r : LLMResponse) (m : String)
    (hfail : ∀ x ∈ pre, ∃ m', oracle x = .error m') :
    ((selectEndpoints now rand (eps.map initEndpointState)).length = eps.length)
    ∧ ((selectEndpoints now rand (eps.map initEndpointState)).Perm
        ((eps.map initEndpointState).map (probeRecover now)))
    ∧ (selectEndpoints now rand (eps.map initEndpointState) = pre ++ e :: post →
        oracle e = .ok r →
        complete eps.length now rand (eps.map initEndpointState) oracle
          = (.ok r, pre.length + 1))
    ∧ (selectEndpoints now rand (eps.map initEndpointState) = pre ++ [e] →
        oracle e = .error m →
        complete eps.length now rand (eps.map initEndpointState) oracle
          = (.error ("All " ++ toString eps.length
              ++ " LLM endpoints failed. Last error: " ++ m), eps.length)) := by
  have hperm := selectEndpoints_perm now rand (eps.map initEndpointState)
  have hlen : (selectEndpoints now rand (eps.map initEndpointState)).length = eps.length := by
    rw [hperm.length_eq]
    simp
  refine ⟨hlen, hperm, ?_, ?_⟩
  · intro horder hok
    unfold complete
    rw [horder]
    dsimp only
    obtain ⟨le', hle'⟩ := completeGo_fail_shift oracle pre hfail (e :: post) 0 none
    rw [hle', completeGo_cons, hok]
    show (Except.ok r, 0 + pre.length + 1) = (Except.ok r, pre.length + 1)
    rw [Nat.zero_add]
  · intro horder herr
    unfold complete
    rw [horder]
    dsimp only
    obtain ⟨le', hle'⟩ := completeGo_fail_shift oracle pre hfail [e] 0 none
    rw [hle', completeGo_cons, herr]
    have hcount : pre.length + 1 = eps.length := by
      have := hlen
      rw [horder] at this
      simpa using this
    show (Except.error ("All " ++ toString eps.length
      ++ " LLM endpoints failed. Last error: " ++ m), 0 + pre.length + 1)
      = (Except.error ("All " ++ toString eps.length
      ++ " LLM endpoints failed. Last error: " ++ m), eps.length)
    rw [Nat.zero_add, hcount]

/-- Concrete instance of `complete_first_success_or_aggregate`: a single
endpoint; a succeeding oracle returns its response after one attempt, and an
always-failing oracle yields the aggregated error after one attempt. -/
theorem complete_first_success_or_aggregate_witness :
    (complete 1 0 (fun _ => 0) ([⟨"a", "http://a", none, 100⟩].map initEndpointState)
        (fun _ => .ok ⟨"hi", 1, 2, 3, "stop", "a", 5⟩)
      = (.ok ⟨"hi", 1, 2, 3, "stop", "a", 5⟩, 1))
    ∧ (complete 1 0 (fun _ => 0) ([⟨"a", "http://a", none, 100⟩].map initEndpointState)
        (fun _ => .error "503")
      = (.error "All 1 LLM endpoints failed. Last error: 503", 1)) := by
  constructor
  · have h := complete_first_success_or_aggregate [⟨"a", "http://a", none, 100⟩] 0 (fun _ => 0)
      (fun _ => .ok ⟨"hi", 1, 2, 3, "stop", "a", 5⟩) [] []
      (initEndpointState ⟨"a", "http://a", none, 100⟩) ⟨"hi", 1, 2, 3, "stop", "a", 5⟩ "503"
      (by intro x hx; cases hx)
    exact h.2.2.1 (by decide) rfl
  · have h := complete_first_success_or_aggregate [⟨"a", "http://a", none, 100⟩] 0 (fun _ => 0)
      (fun _ => .error "503") [] []
      (initEndpointState ⟨"a", "http://a", none, 100⟩) ⟨"hi", 1, 2, 3, "stop", "a", 5⟩ "503"
      (by intro x hx; cases hx)
    exact h.2.2.2 (by decide) rfl

/-- The health invariant justifying the hypotheses below: an unhealthy
endpoint always carries at least 3 consecutive failures. -/
def endpointInv (s : EndpointState) : Prop :=
  s.healthy = false → UNHEALTHY_THRESHOLD ≤ s.consecutiveFailures

theorem endpointInv_init (ep : LLMEndpoint) : endpointInv (initEndpointState ep) := by
  intro h
  cases h

theorem endpointInv_recordFailure (now : Nat) (s : EndpointState) (h : endpointInv s) :
    endpointInv (recordFailure now s) := by
  unfold endpointInv
  simp only [recordFailure]
  split
  · intro _
    assumption
  · intro hfalse
    have := h hfalse
    omega

theorem endpointInv_recordSuccess (latencyMs : Rat) (s : EndpointState) :
    endpointInv (recordSuccessState latencyMs s) := by
  intro h
  cases h

theorem endpointInv_probeRecover (now : Nat) (s : EndpointState) (h : endpointInv s) :
    endpointInv (probeRecover now s) := by
  unfold endpointInv
  simp only [probeRecover]
  split
  · intro hc
    cases hc
  · exact h

/-- C9: an endpoint is marked unhealthy by `recordFailure` exactly when it
reaches 3 consecutive failures; `selectEndpoints` always orders the
(post-probe) healthy endpoints before all unhealthy ones; and an unhealthy
endpoint whose last failure is more than 30 s old is re-marked healthy with
its consecutive-failure counter reset. -/
theorem endpoint_health_lifecycle (now : Nat) (s : EndpointState) (hinv : endpointInv s)
    (rand : Nat → Rat) (states : List EndpointState) :
    ((recordFailure now s).healthy = false ↔ 3 ≤ s.consecutiveFailures + 1)
    ∧ (recordFailure now s).consecutiveFailures = s.consecutiveFailures + 1
    ∧ (∃ front back, selectEndpoints now rand states = front ++ back
        ∧ (∀ a ∈ front, a.healthy = true) ∧ (∀ b ∈ back, b.healthy = false))
    ∧ (s.healthy = false → RECOVERY_PROBE_MS < now - s.lastFailureAt →
        (probeRecover now s).healthy = true ∧ (probeRecover now s).consecutiveFailures = 0) := by
  refine ⟨?_, ?_, ?_, ?_⟩
  · simp only [recordFailure]
    by_cases hge : UNHEALTHY_THRESHOLD ≤ s.consecutiveFailures + 1
    · rw [if_pos hge]
      unfold UNHEALTHY_THRESHOLD at hge
      exact ⟨fun _ => hge, fun _ => rfl⟩
    · rw [if_neg hge]
      unfold UNHEALTHY_THRESHOLD at hge
      constructor
      · intro hh
        have := hinv hh
        unfold UNHEALTHY_THRESHOLD at this
        omega
      · intro hge'
        omega
  · simp only [recordFailure]
    split <;> rfl
  · refine ⟨weightedSort rand ((states.map (probeRecover now)).filter (·.healthy)),
      (states.map (probeRecover now)).filter (fun s => !s.healthy), rfl, ?_, ?_⟩
    · intro a ha
      have hmem : a ∈ (states.map (probeRecover now)).filter (·.healthy) :=
        (weightedSort_perm rand _).subset ha
      simpa using (List.mem_filter.1 hmem).2
    · intro b hb
      have := (List.mem_filter.1 hb).2
      simpa using this
  · intro hunhealthy hstale
    unfold probeRecover
    rw [if_pos ⟨hunhealthy, hstale⟩]
    exact ⟨rfl, rfl⟩

/-- Concrete instance of `endpoint_health_lifecycle`: a third consecutive
failure flips the endpoint unhealthy; just over 30 s later the probe pass
restores it with the counter reset. -/
theorem endpoint_health_lifecycle_witness :
    (endpointInv ⟨⟨"a", "http://a", none, 100⟩, 100, 0, 2, 2, 2, 50, true⟩)
    ∧ ((recordFailure 60 ⟨⟨"a", "http://a", none, 100⟩, 100, 0, 2, 2, 2, 50, true⟩).healthy = false)
    ∧ ((probeRecover 31051 ⟨⟨"a", "http://a", none, 100⟩, 100, 0, 3, 3, 3, 1050, false⟩).healthy
        = true)
    ∧ ((probeRecover 31051
        ⟨⟨"a", "http://a", none, 100⟩, 100, 0, 3, 3, 3, 1050, false⟩).consecutiveFailures = 0) := by
  have h1 := endpoint_health_lifecycle 60 ⟨⟨"a", "http://a", none, 100⟩, 100, 0, 2, 2, 2, 50, true⟩
    (by intro h; cases h) (fun _ => 0) []
  have h2 := endpoint_health_lifecycle 31051
    ⟨⟨"a", "http://a", none, 100⟩, 100, 0, 3, 3, 3, 1050, false⟩
    (by intro _; exact Nat.le_refl 3) (fun _ => 0) []
  have h2probe := h2.2.2.2 rfl (by decide)
  exact ⟨(by intro h; cases h), h1.1.mpr (by decide), h2probe.1, h2probe.2⟩

/-! ### Planner response parsing (planner.ts `parsePlannerResponse`,
`salvageTruncatedResponse`; shared.ts `parseLLMTaskArray`) -/

/-- First index at which `pat` occurs in `cs` (JS `indexOf` for a substring;
`none` encodes `-1`). -/
def firstOccurGo (pat : List Char) : Nat → List Char → Nat → Option Nat
  | 0, _, _ => none
  | fuel + 1, cs, i =>
    if pat.isPrefixOf cs then some i
    else
      match cs with
      | [] => none
      | _ :: rest => firstOccurGo pat fuel rest (i + 1)

def firstOccur (pat cs : List Char) : Option Nat :=
  firstOccurGo pat (cs.length + 1) cs 0

/-- Last index at which `pat` occurs in `cs` (JS `lastIndexOf`). -/
def lastOccurGo (pat : List Char) : Nat → List Char → Nat → Option Nat → Option Nat
  | 0, _, _, acc => acc
  | fuel + 1, cs, i, acc =>
    let acc' := if pat.isPrefixOf cs then some i else acc
    match cs with
    | [] => acc'
    | _ :: rest => lastOccurGo pat fuel rest (i + 1) acc'

def lastOccur (pat cs : List Char) : Option Nat :=
  lastOccurGo pat (cs.length + 1) cs 0 none

/-- The fence regex of planner.ts:456 — a triple backtick, an optional
`json` tag, greedy whitespace, then a lazy capture up to the next triple
backtick.  Because neither the tag nor whitespace can contain a backtick, a
match exists iff a closing fence follows the first opening fence, and
backtracking never changes the capture; this function computes that match
directly. -/
def fenceMatch (s : String) : Option String :=
  let cs := s.data
  match firstOccur "```".data cs with
  | none => none
  | some i =>
    let j := i + 3
    let j2 := if "json".data.isPrefixOf (cs.drop j) then j + 4 else j
    let q := j2 + ((cs.drop j2).takeWhile jsWsChar).length
    match firstOccur "```".data (cs.drop q) with
    | none => none
    | some off => some ⟨(cs.drop q).take off⟩

structure ParsedPlan where
  scratchpad : String
  tasks : List JVal
  deriving Repr

/-- The capture group of the scratchpad regex (planner.ts:508):
`((?:[^"\\]|\\.)*)` followed by a closing quote — the raw characters between
the quotes, escapes included. -/
def scratchpadCapture : Nat → List Char → Option (List Char)
  | 0, _ => none
  | _ + 1, [] => none
  | fuel + 1, c :: rest =>
    if c = '"' then some []
    else if c = '\\' then
      match rest with
      | [] => none
      | d :: rest2 => (scratchpadCapture fuel rest2).map fun t => c :: d :: t
    else (scratchpadCapture fuel rest).map fun t => c :: t

/-- Try the scratchpad regex at the current position: the literal
`"scratchpad"`, `\s*`, `:`, `\s*`, `"`, then the capture. -/
def scratchpadMatchAt (cs : List Char) : Option (List Char) :=
  if "\"scratchpad\"".data.isPrefixOf cs then
    match (cs.drop 12).dropWhile jsWsChar with
    | ':' :: r2 =>
      match r2.dropWhile jsWsChar with
      | '"' :: r4 => scratchpadCapture (r4.length + 1) r4
      | _ => none
    | _ => none
  else none

/-- Leftmost scratchpad-regex match over the whole content. -/
def scratchpadSearch : Nat → List Char → Option (List Char)
  | 0, _ => none
  | fuel + 1, cs =>
    match scratchpadMatchAt cs with
    | some cap => some cap
    | none =>
      match cs with
      | [] => none
      | _ :: rest => scratchpadSearch fuel rest

/-- Try the tasks-key regex of planner.ts:518 (`"tasks"\s*:\s*\[`) at the
current position, returning the length of the match. -/
def tasksKeyMatchAt (cs : List Char) : Option Nat :=
  if "\"tasks\"".data.isPrefixOf cs then
    let w1 := ((cs.drop 7).takeWhile jsWsChar).length
    match (cs.drop 7).drop w1 with
    | ':' :: r2 =>
      let w2 := (r2.takeWhile jsWsChar).length
      match r2.drop w2 with
      | '[' :: _ => some (7 + w1 + 1 + w2 + 1)
      | _ => none
    | _ => none
  else none

/-- The remainder of the content after the leftmost tasks-key match
(planner.ts:523-524). -/
def tasksRemainder : Nat → List Char → Option (List Char)
  | 0, _ => none
  | fuel + 1, cs =>
    match tasksKeyMatchAt cs with
    | some n => some (cs.drop n)
    | none =>
      match cs with
      | [] => none
      | _ :: rest => tasksRemainder fuel rest

/-- The in-string skip of the salvage scan (planner.ts:534-544): consume up
to and including the closing quote, skipping escape pairs; at end of input
everything is consumed. -/
def skipJsStringChars : Nat → List Char → List Char × List Char
  | 0, cs => ([], cs)
  | _ + 1, [] => ([], [])
  | fuel + 1, c :: rest =>
    if c = '\\' then
      match rest with
      | [] => ([c], [])
      | d :: rest2 =>
        let (t, r) := skipJsStringChars fuel rest2
        (c :: d :: t, r)
    else if c = '"' then ([c], rest)
    else
      let (t, r) := skipJsStringChars fuel rest
      (c :: t, r)

/-- The brace-matching scan of `salvageTruncatedResponse`
(planner.ts:527-565): track brace depth outside strings, buffer the
characters of the object open at depth 0→1, and on each balanced close parse
the buffered object, keeping it when its `description` is truthy. -/
def salvageScan : Nat → List Char → Int → Option (List Char) → List JVal → List JVal
  | 0, _, _, _, acc => acc
  | fuel + 1, cs, depth, buf, acc =>
    match cs with
    | [] => acc
    | c :: rest =>
      if c = '"' then
        let (skipped, rest2) := skipJsStringChars (rest.length + 1) rest
        salvageScan fuel rest2 depth (buf.map fun b => b ++ c :: skipped) acc
      else if c = '{' then
        if depth = 0 then salvageScan fuel rest (depth + 1) (some [c]) acc
        else salvageScan fuel rest (depth + 1) (buf.map fun b => b ++ [c]) acc
      else if c = '}' then
        if depth - 1 = 0 then
          match buf with
          | some b =>
            let acc' :=
              match jsonParse ⟨b ++ [c]⟩ with
              | some task => if jsTruthy (jsGet task "description") then acc ++ [task] else acc
              | none => acc
            salvageScan fuel rest (depth - 1) none acc'
          | none => salvageScan fuel rest (depth - 1) none acc
        else salvageScan fuel rest (depth - 1) (buf.map fun b => b ++ [c]) acc
      else salvageScan fuel rest depth (buf.map fun b => b ++ [c]) acc

/-- `salvageTruncatedResponse` (planner.ts:503-568): recover the scratchpad
by regex (JSON-unescaping the capture when possible, raw otherwise) and the
complete task objects from within the `tasks` array. -/
def salvageTruncatedResponse (content : String) : ParsedPlan :=
  let scratchpad :=
    match scratchpadSearch (content.data.length + 1) content.data with
    | some cap =>
      match jsonParse ⟨'"' :: cap ++ ['"']⟩ with
      | some (.jstr s) => s
      | _ => (⟨cap⟩ : String)
    | none => ""
  match tasksRemainder (content.data.length + 1) content.data with
  | none => ⟨scratchpad, []⟩
  | some remainder => ⟨scratchpad, salvageScan (remainder.length + 1) remainder 0 none []⟩

/-- `parseLLMTaskArray` (shared.ts:644-675): strip a leading code fence,
slice to the outermost `[...]`, `JSON.parse`, and require an array; `none`
encodes the thrown error. -/
def parseLLMTaskArray (content : String) : Option (List JVal) :=
  let cleaned := jsTrim content
  let cleaned :=
    if "```".data.isPrefixOf cleaned.data then
      match idxOfChar cleaned.data '\n', lastOccur "```".data cleaned.data with
      | some firstNewline, some lastBackticks =>
        if firstNewline < lastBackticks then
          jsTrim ⟨jsSlice cleaned.data (firstNewline + 1) lastBackticks⟩
        else cleaned
      | _, _ => cleaned
    else cleaned
  let cleaned :=
    match idxOfChar cleaned.data '[', lastIdxOfChar cleaned.data ']' with
    | some i, some j => if i < j then (⟨jsSlice cleaned.data i (j + 1)⟩ : String) else cleaned
    | _, _ => cleaned
  match jsonParse cleaned with
  | some (.jarr elems) => some elems
  | some _ => none
  | none => none

/-- Outcome of the structured-JSON attempt in `parsePlannerResponse`
(planner.ts:453-474): a successful parse of the expected shape, a clean miss
(no exception — fall through to the legacy array parser), or a `JSON.parse`
exception (fall through to salvage). -/
inductive StructuredResult where
  | parsed (p : ParsedPlan)
  | noMatch
  | threw

def structuredParse (content : String) : StructuredResult :=
  let cleaned := jsTrim content
  let cleaned :=
    match fenceMatch cleaned with
    | some cap => jsTrim cap
    | none => cleaned
  match idxOfChar cleaned.data '{', lastIdxOfChar cleaned.data '}' with
  | some objStart, some objEnd =>
    if objStart < objEnd then
      match jsonParse ⟨jsSlice cleaned.data objStart (objEnd + 1)⟩ with
      | some (.jobj fields) =>
        (match jsGet (.jobj fields) "tasks" with
         | some (.jarr ts) =>
           .parsed ⟨(match jsGet (.jobj fields) "scratchpad" with
                     | some (.jstr s) => s
                     | _ => ""), ts⟩
         | _ => .noMatch)
      | some _ => .noMatch
      | none => .threw
    else .noMatch
  | _, _ => .noMatch

/-- `parsePlannerResponse` (planner.ts:452-495): structured object first; on
a parse exception salvage, keeping the salvage result only when it recovered
at least one task; otherwise the legacy bare-array fallback, and an empty
plan when everything fails. -/
def parsePlannerResponse (content : String) : ParsedPlan :=
  match structuredParse content with
  | .parsed p => p
  | .threw =>
    let salvaged := salvageTruncatedResponse content
    if salvaged.tasks.length > 0 then salvaged
    else
      match parseLLMTaskArray content with
      | some ts => ⟨"", ts⟩
      | none => ⟨"", []⟩
  | .noMatch =>
    match parseLLMTaskArray content with
    | some ts => ⟨"", ts⟩
    | none => ⟨"", []⟩

/-- The truncated response of the claim (boundary scenario 5 of the spec). -/
def truncatedExample : String :=
  "\x7b\"scratchpad\":\"ok\",\"tasks\":[\x7b\"id\":\"t1\",\"description\":\"a\"\x7d,\x7b\"id\":\"t2\",\"description\":\"b\""

/-- The single task object salvaged from `truncatedExample`. -/
def salvagedTaskT1 : JVal :=
  .jobj [("id", .jstr "t1"), ("description", .jstr "a")]

theorem salvageScan_keeps_only_described (fuel : Nat) :
    ∀ (cs : List Char) (depth : Int) (buf : Option (List Char)) (acc : List JVal),
    (∀ t ∈ acc, jsTruthy (jsGet t "description") = true) →
    ∀ t ∈ salvageScan fuel cs depth buf acc, jsTruthy (jsGet t "description") = true := by
  induction fuel with
  | zero =>
    intro cs depth buf acc hacc t ht
    exact hacc t ht
  | succ fuel ih =>
    intro cs depth buf acc hacc t ht
    match cs with
    | [] => exact hacc t ht
    | c :: rest =>
      simp only [salvageScan] at ht
      by_cases h1 : c = '"'
      · rw [if_pos h1] at ht
        exact ih _ _ _ _ hacc t ht
      · rw [if_neg h1] at ht
        by_cases h2 : c = '{'
        · rw [if_pos h2] at ht
          by_cases hd : depth = 0
          · rw [if_pos hd] at ht
            exact ih _ _ _ _ hacc t ht
          · rw [if_neg hd] at ht
            exact ih _ _ _ _ hacc t ht
        · rw [if_neg h2] at ht
          by_cases h3 : c = '}'
          · rw [if_pos h3] at ht
            by_cases hd : depth - 1 = 0
            · rw [if_pos hd] at ht
              match buf with
              | some b =>
                simp only at ht
                refine ih _ _ _ _ ?_ t ht
                intro u hu
                revert hu
                match hp : jsonParse (⟨b ++ [c]⟩ : String) with
                | some task =>
                  simp only
                  by_cases htr : jsTruthy (jsGet task "description") = true
                  · rw [if_pos htr]
                    intro hu
                    rcases List.mem_append.1 hu with hu1 | hu2
                    · exact hacc u hu1
                    · rw [List.mem_singleton.1 hu2]
                      exact htr
                  · rw [if_neg htr]
                    exact hacc u
                | none =>
                  simp only
                  exact hacc u
              | none =>
                simp only at ht
                exact ih _ _ _ _ hacc t ht
            · rw [if_neg hd] at ht
              exact ih _ _ _ _ hacc t ht
          · rw [if_neg h3] at ht
            exact ih _ _ _ _ hacc t ht

/-- C7: on a truncated planner response (the outer `JSON.parse` throws), the
salvage pass recovers, from within the `tasks` array, only brace-balanced
objects whose `description` is truthy (every salvaged task satisfies the
`description` guard), and the scratchpad comes from the direct regex; on the
claim's concrete input the pipeline returns exactly the complete task `t1`
with scratchpad `ok`, discarding the incomplete trailing object. -/
theorem truncated_response_salvage :
    (∀ (content : String) (t : JVal), t ∈ (salvageTruncatedResponse content).tasks →
        jsTruthy (jsGet t "description") = true)
    ∧ structuredParse truncatedExample = .threw
    ∧ salvageTruncatedResponse truncatedExample = ⟨"ok", [salvagedTaskT1]⟩
    ∧ parsePlannerResponse truncatedExample = ⟨"ok", [salvagedTaskT1]⟩ := by
  refine ⟨?_, rfl, rfl, rfl⟩
  intro content t ht
  unfold salvageTruncatedResponse at ht
  revert ht
  match tasksRemainder (content.data.length + 1) content.data with
  | none =>
    intro ht
    simp only at ht
    cases ht
  | some remainder =>
    intro ht
    simp only at ht
    exact salvageScan_keeps_only_described _ _ _ _ _ (by intro u hu; cases hu) t ht

/-- Concrete instance of `truncated_response_salvage`: the salvaged task of
the claim's input indeed carries a truthy `description`. -/
theorem truncated_response_salvage_witness :
    (salvagedTaskT1 ∈ (salvageTruncatedResponse truncatedExample).tasks)
    ∧ jsTruthy (jsGet salvagedTaskT1 "description") = true := by
  have h := truncated_response_salvage
  have hmem : salvagedTaskT1 ∈ (salvageTruncatedResponse truncatedExample).tasks := by
    rw [h.2.2.1]
    exact List.mem_singleton.mpr rfl
  exact ⟨hmem, h.1 truncatedExample salvagedTaskT1 hmem⟩

end Longshot
